import Mathlib

/-! Quotes service: storage, service and HTTP layers.

A shallow embedding of the Go packages

* `internal/domain/models` (the `Quote` record),
* `internal/storage` (the sentinel errors),
* `internal/storage/quotes/memory` (the in-memory `QuoteStorage`),
* `internal/services` (`QuoteService`),
* `internal/handlers` (`QuoteHandler`) and the route table of `cmd/quotes/main.go`.

Conventions of the embedding.

* A method with a pointer receiver becomes a function that takes the store and returns the
  store it leaves behind together with the Go return values; a Go `error` result is an
  `Option GoError` (`none` is `nil`).
* `int64` values are `Int`.  The only arithmetic on them is `nextID++`, starting from `1`.
  `QuoteStorage.Create` computes the increment in `Int`, which is the machine result for every
  counter below `2 ^ 63 - 1`, hence for every run with fewer than `2 ^ 63 - 1` successful
  creates; `QuoteStorage.CreateInt64` is the same method with the wrap-around written out.
* `time.Now()` is an argument of `Create` (the clock reading, as a `Nat`).
* `rand.IntN n` is an argument-driven draw: `randIntN seed n` with `seed` ranging over `Nat`
  produces every value of `[0, n)`.
* A slice returned to a caller is an `Option (List Quote)`: `none` is the `nil` slice, which is
  what `var result []models.Quote` holds until the first `append`.
* The mutex only serialises the methods; each method is modelled as one atomic step.
-/

namespace Quotes

/-! ## `internal/domain/models` -/

/-- The record `models.Quote`. -/
structure Quote where
  ID : Int
  Author : String
  Text : String
  CreatedAt : Nat
  deriving DecidableEq, Repr

/-! ## `internal/storage`: sentinel errors and wrapping -/

/-- Go error values of the program: the five sentinels of `internal/storage`, an error made
by `fmt.Errorf` without `%w` (`errorString`), and an error made by
`fmt.Errorf("%s: %w", op, err)` (`wrapError`). -/
inductive GoError where
  | ErrQuoteNotFound
  | ErrEmptyAuthor
  | ErrEmptyText
  | ErrNoQuotesAvailable
  | ErrInvalidID
  | errorString (msg : String)
  | wrapError (op : String) (inner : GoError)
  deriving DecidableEq, Repr

/-- The function `errors.Is err target` for a sentinel `target`: walks the `%w` chain of `err`
and compares each link with `target`. -/
def errorsIs : GoError → GoError → Bool
  | .wrapError op inner, target =>
      decide (GoError.wrapError op inner = target) || errorsIs inner target
  | err, target => decide (err = target)

/-- The text `err.Error()`. -/
def GoError.Error : GoError → String
  | .ErrQuoteNotFound => "quote not found"
  | .ErrEmptyAuthor => "author cannot be empty"
  | .ErrEmptyText => "quote text cannot be empty"
  | .ErrNoQuotesAvailable => "no quotes available"
  | .ErrInvalidID => "invalid quote ID"
  | .errorString msg => msg
  | .wrapError op inner => op ++ ": " ++ inner.Error

/-! ## `internal/storage/quotes/memory` -/

/-- The struct `QuoteStorage` without its mutex. -/
structure QuoteStorage where
  quotes : List Quote
  nextID : Int
  deriving DecidableEq, Repr

/-- The constructor `NewQuoteStorage`: an empty collection and `nextID = 1`. -/
def NewQuoteStorage : QuoteStorage :=
  { quotes := [], nextID := 1 }

/-- The method `Create(quote)`; `now` is the value of `time.Now()`.  Returns the store, the
caller's quote as the method leaves it (the method writes through the pointer), and the
error.  The increment `nextID++` is exact while the counter is below `2 ^ 63 - 1`. -/
def QuoteStorage.Create (s : QuoteStorage) (now : Nat) (quote : Quote) :
    QuoteStorage × Quote × Option GoError :=
  if quote.Author = "" then
    (s, quote, some (.wrapError "storage.quotes.memory.Create" .ErrEmptyAuthor))
  else if quote.Text = "" then
    (s, quote, some (.wrapError "storage.quotes.memory.Create" .ErrEmptyText))
  else
    let quote1 := { quote with ID := s.nextID }
    let quote2 := { quote1 with CreatedAt := now }
    ({ quotes := s.quotes ++ [quote2], nextID := s.nextID + 1 }, quote2, none)

/-- The `int64` value that Go's wrapping arithmetic leaves for the integer `x`. -/
def wrapInt64 (x : Int) : Int :=
  (x + 2 ^ 63) % 2 ^ 64 - 2 ^ 63

/-- The method `Create(quote)` with the `int64` arithmetic of `nextID++` written out: at
the largest `int64` value the counter wraps around to the smallest one.  On every other
counter value this is `QuoteStorage.Create`. -/
def QuoteStorage.CreateInt64 (s : QuoteStorage) (now : Nat) (quote : Quote) :
    QuoteStorage × Quote × Option GoError :=
  if quote.Author = "" then
    (s, quote, some (.wrapError "storage.quotes.memory.Create" .ErrEmptyAuthor))
  else if quote.Text = "" then
    (s, quote, some (.wrapError "storage.quotes.memory.Create" .ErrEmptyText))
  else
    let quote1 := { quote with ID := s.nextID }
    let quote2 := { quote1 with CreatedAt := now }
    ({ quotes := s.quotes ++ [quote2], nextID := wrapInt64 (s.nextID + 1) }, quote2, none)

/-- The method `GetAll`: a fresh slice of the same length with the collection copied in. -/
def QuoteStorage.GetAll (s : QuoteStorage) :
    QuoteStorage × Option (List Quote) × Option GoError :=
  (s, some s.quotes, none)

/-- The value `rand.IntN n` for `0 < n`, driven by the entropy `seed`: a number below `n`,
and every number below `n` for some `seed`. -/
def randIntN (seed n : Nat) : Nat :=
  seed % n

/-- The method `GetRandom`; `seed` drives `rand.IntN`. -/
def QuoteStorage.GetRandom (s : QuoteStorage) (seed : Nat) :
    QuoteStorage × Option Quote × Option GoError :=
  if h : s.quotes.length = 0 then
    (s, none, some (.wrapError "storage.quotes.memory.GetRandom" .ErrNoQuotesAvailable))
  else
    let randomIndex := randIntN seed s.quotes.length
    let quote := s.quotes.get ⟨randomIndex, Nat.mod_lt seed (Nat.pos_of_ne_zero h)⟩
    (s, some quote, none)

/-- Go's `append(result, quote)` on a possibly nil slice. -/
def goAppend (result : Option (List Quote)) (quote : Quote) : Option (List Quote) :=
  match result with
  | none => some [quote]
  | some elems => some (elems ++ [quote])

/-- The loop of `GetByAuthor`: ranges over the collection and appends each quote whose
author is `author` to `result`. -/
def QuoteStorage.GetByAuthor.loop (author : String) :
    List Quote → Option (List Quote) → Option (List Quote)
  | [], result => result
  | quote :: rest, result =>
      if quote.Author = author then loop author rest (goAppend result quote)
      else loop author rest result

/-- The method `GetByAuthor`. -/
def QuoteStorage.GetByAuthor (s : QuoteStorage) (author : String) :
    QuoteStorage × Option (List Quote) × Option GoError :=
  if author = "" then
    (s, none, some (.wrapError "storage.quotes.memory.GetByAuthor" .ErrEmptyAuthor))
  else
    (s, QuoteStorage.GetByAuthor.loop author s.quotes none, none)

/-- The loop of `Delete`: the index of the first quote whose `ID` is `id`, counting from
`i`, if there is one. -/
def QuoteStorage.Delete.scan (id : Int) : List Quote → Nat → Option Nat
  | [], _ => none
  | quote :: rest, i => if quote.ID = id then some i else scan id rest (i + 1)

/-- The body of the `if` in `Delete`: `quotes[i] = quotes[len - 1]`, then
`quotes = quotes[:len - 1]`. -/
def swapRemove (quotes : List Quote) (i : Nat) : List Quote :=
  match quotes.getLast? with
  | none => quotes
  | some last => (quotes.set i last).take (quotes.length - 1)

/-- The method `Delete(id)`. -/
def QuoteStorage.Delete (s : QuoteStorage) (id : Int) : QuoteStorage × Option GoError :=
  if id ≤ 0 then
    (s, some (.wrapError "storage.quotes.memory.Delete" .ErrInvalidID))
  else
    match QuoteStorage.Delete.scan id s.quotes 0 with
    | some i => ({ s with quotes := swapRemove s.quotes i }, none)
    | none => (s, some (.wrapError "storage.quotes.memory.Delete" .ErrQuoteNotFound))

/-! ## Sequences of store operations -/

/-- One call on the store, with the environment values it consumes. -/
inductive Op where
  | create (now : Nat) (quote : Quote)
  | getAll
  | getRandom (seed : Nat)
  | getByAuthor (author : String)
  | delete (id : Int)
  deriving DecidableEq, Repr

/-- What a call hands back to its caller. -/
inductive Result where
  | create (quote : Quote) (err : Option GoError)
  | getAll (quotes : Option (List Quote)) (err : Option GoError)
  | getRandom (quote : Option Quote) (err : Option GoError)
  | getByAuthor (quotes : Option (List Quote)) (err : Option GoError)
  | delete (err : Option GoError)
  deriving DecidableEq, Repr

/-- Performs one call: the store afterwards and what the caller gets. -/
def step (s : QuoteStorage) : Op → QuoteStorage × Result
  | .create now quote =>
      let r := s.Create now quote
      (r.1, .create r.2.1 r.2.2)
  | .getAll =>
      let r := s.GetAll
      (r.1, .getAll r.2.1 r.2.2)
  | .getRandom seed =>
      let r := s.GetRandom seed
      (r.1, .getRandom r.2.1 r.2.2)
  | .getByAuthor author =>
      let r := s.GetByAuthor author
      (r.1, .getByAuthor r.2.1 r.2.2)
  | .delete id =>
      let r := s.Delete id
      (r.1, .delete r.2)

/-- Performs the calls in order: the final store and the results, in call order. -/
def run (s : QuoteStorage) : List Op → QuoteStorage × List Result
  | [] => (s, [])
  | op :: ops =>
      let r := step s op
      let rs := run r.1 ops
      (rs.1, r.2 :: rs.2)

/-- The id a call assigned: the `ID` of the caller's quote after a `Create` that returned
`nil`; nothing for any other call. -/
def Result.assignedID : Result → Option Int
  | .create quote none => some quote.ID
  | _ => none

/-- The ids assigned by the successful creates of a run, in call order. -/
def assignedIDs (s : QuoteStorage) (ops : List Op) : List Int :=
  (run s ops).2.filterMap Result.assignedID

/-- Whether the call is a `Create` that returned `nil`. -/
def Result.createSucceeded : Result → Bool
  | .create _ none => true
  | _ => false

/-- Whether the call is one of the three reads `GetAll`, `GetRandom`, `GetByAuthor`. -/
def Op.isRead : Op → Bool
  | .getAll => true
  | .getRandom _ => true
  | .getByAuthor _ => true
  | _ => false

/-- A store state that some sequence of calls on a fresh store leads to. -/
def Reachable (s : QuoteStorage) : Prop :=
  ∃ ops : List Op, (run NewQuoteStorage ops).1 = s

/-- The invariant of the store: ids are positive, below the counter and pairwise distinct,
and no stored quote has an empty author or text. -/
structure Inv (s : QuoteStorage) : Prop where
  pos : ∀ q ∈ s.quotes, 0 < q.ID
  below : ∀ q ∈ s.quotes, q.ID < s.nextID
  nodup : (s.quotes.map Quote.ID).Nodup
  author : ∀ q ∈ s.quotes, q.Author ≠ ""
  text : ∀ q ∈ s.quotes, q.Text ≠ ""
  counter : 0 < s.nextID

/-! ## `internal/services` -/

/-- The interface `services.QuoteRepository`, over a repository state `σ`.  The clock reading
and the entropy are passed to the operations that may consume them. -/
structure QuoteRepository (σ : Type) where
  Create : σ → Nat → Quote → σ × Quote × Option GoError
  GetAll : σ → σ × Option (List Quote) × Option GoError
  GetRandom : σ → Nat → σ × Option Quote × Option GoError
  GetByAuthor : σ → String → σ × Option (List Quote) × Option GoError
  Delete : σ → Int → σ × Option GoError

/-- The in-memory store as a `QuoteRepository`: what `NewQuoteStorage` returns. -/
def memoryRepository : QuoteRepository QuoteStorage where
  Create := QuoteStorage.Create
  GetAll := QuoteStorage.GetAll
  GetRandom := QuoteStorage.GetRandom
  GetByAuthor := QuoteStorage.GetByAuthor
  Delete := QuoteStorage.Delete

/-- The method `QuoteService.CreateQuote`; the argument is a pointer, `none` is `nil`. -/
def QuoteService.CreateQuote {σ : Type} (repo : QuoteRepository σ) (s : σ) (now : Nat)
    (quote : Option Quote) : σ × Option Quote × Option GoError :=
  match quote with
  | none =>
      (s, none, some (.wrapError "services.quote.CreateQuote"
        (.errorString "quote cannot be nil")))
  | some q =>
      let r := repo.Create s now q
      match r.2.2 with
      | some err => (r.1, some r.2.1, some (.wrapError "services.quote.CreateQuote" err))
      | none => (r.1, some r.2.1, none)

/-- The method `QuoteService.GetAllQuotes`. -/
def QuoteService.GetAllQuotes {σ : Type} (repo : QuoteRepository σ) (s : σ) :
    σ × Option (List Quote) × Option GoError :=
  let r := repo.GetAll s
  match r.2.2 with
  | some err => (r.1, none, some (.wrapError "services.quote.GetAllQuotes" err))
  | none => (r.1, r.2.1, none)

/-- The method `QuoteService.GetRandomQuote`. -/
def QuoteService.GetRandomQuote {σ : Type} (repo : QuoteRepository σ) (s : σ) (seed : Nat) :
    σ × Option Quote × Option GoError :=
  let r := repo.GetRandom s seed
  match r.2.2 with
  | some err => (r.1, none, some (.wrapError "services.quote.GetRandomQuote" err))
  | none => (r.1, r.2.1, none)

/-- The method `QuoteService.GetQuotesByAuthor`. -/
def QuoteService.GetQuotesByAuthor {σ : Type} (repo : QuoteRepository σ) (s : σ)
    (author : String) : σ × Option (List Quote) × Option GoError :=
  if author = "" then
    (s, none, some (.wrapError "services.quote.GetQuotesByAuthor" .ErrEmptyAuthor))
  else
    let r := repo.GetByAuthor s author
    match r.2.2 with
    | some err => (r.1, none, some (.wrapError "services.quote.GetQuotesByAuthor" err))
    | none => (r.1, r.2.1, none)

/-- The method `QuoteService.DeleteQuote`. -/
def QuoteService.DeleteQuote {σ : Type} (repo : QuoteRepository σ) (s : σ) (id : Int) :
    σ × Option GoError :=
  if id ≤ 0 then
    (s, some (.wrapError "services.quote.DeleteQuote" .ErrInvalidID))
  else
    let r := repo.Delete s id
    match r.2 with
    | some err => (r.1, some (.wrapError "services.quote.DeleteQuote" err))
    | none => (r.1, none)

/-- The five sentinel errors of `internal/storage`, the error kinds of the program. -/
def sentinels : List GoError :=
  [.ErrQuoteNotFound, .ErrEmptyAuthor, .ErrEmptyText, .ErrNoQuotesAvailable, .ErrInvalidID]

/-- Two `error` results are of the same kind: both are `nil`, or both are errors and
`errors.Is` answers the same on both for each of the five sentinels. -/
def sameKind (e1 e2 : Option GoError) : Prop :=
  match e1, e2 with
  | none, none => True
  | some a, some b => ∀ target ∈ sentinels, errorsIs a target = errorsIs b target
  | _, _ => False

/-- A repository whose every operation succeeds on any input and whose state is the number
of operations invoked on it so far. -/
def countingRepository : QuoteRepository Nat where
  Create := fun n _ quote => (n + 1, quote, none)
  GetAll := fun n => (n + 1, some [], none)
  GetRandom := fun n _ => (n + 1, some ⟨1, "author", "text", 0⟩, none)
  GetByAuthor := fun n _ => (n + 1, some [], none)
  Delete := fun n _ => (n + 1, none)

/-! ## `internal/handlers` -/

/-- An inbound request as the handlers see it.  `Path` is the URL path after its leading
slash, split at the slashes, so that no segment contains a slash (`/quotes/7` is
`["quotes", "7"]`, `/quotes/` is `["quotes", ""]`, `/` is `[""]`, the empty path is `[]`),
`Query` the key/value pairs of the query string in order,
`Body` the outcome of decoding the JSON body into a `models.Quote` (`none` when the decoder
reports an error), `now` and `seed` the clock reading and entropy available while the request
is served. -/
structure Request where
  Method : String
  Path : List String
  Query : List (String × String)
  Body : Option Quote
  now : Nat
  seed : Nat
  deriving DecidableEq, Repr

/-- What is written to the response: nothing, the line of text written by `http.Error`,
or the JSON encoding of a quote pointer or of a slice of quotes (`none` encodes as `null`,
`some []` as an empty array). -/
inductive ResponseBody where
  | empty
  | text (msg : String)
  | quote (q : Option Quote)
  | quotes (qs : Option (List Quote))
  deriving DecidableEq, Repr

/-- The response: status code and body. -/
structure Response where
  Code : Nat
  Body : ResponseBody
  deriving DecidableEq, Repr

/-- The call `http.Error(w, msg, code)`. -/
def httpError (msg : String) (code : Nat) : Response :=
  { Code := code, Body := .text msg }

/-- The call `r.URL.Query().Get(key)`, and likewise the lookup `vars[key]` in the map of
route variables: the first value of `key`, or the empty string. -/
def queryGet (query : List (String × String)) (key : String) : String :=
  match query.lookup key with
  | some v => v
  | none => ""

/-- The decimal value of a string of digits. -/
def digitsValue (cs : List Char) : Nat :=
  cs.foldl (fun acc c => acc * 10 + (c.toNat - 48)) 0

/-- The call `strconv.ParseInt(str, 10, 64)`: an optional sign, then one or more decimal
digits, and the value must fit `int64`; `none` is a non-nil error. -/
def parseInt64 (str : String) : Option Int :=
  let go (neg : Bool) (cs : List Char) : Option Int :=
    if cs = [] ∨ ¬ cs.all Char.isDigit then none
    else
      let n := digitsValue cs
      if neg then (if n ≤ 2 ^ 63 then some (-(n : Int)) else none)
      else (if n < 2 ^ 63 then some (n : Int) else none)
  match str.data with
  | '-' :: cs => go true cs
  | '+' :: cs => go false cs
  | cs => go false cs

/-- The handler `QuoteHandler.CreateQuote` over the service built on `repo`. -/
def QuoteHandler.CreateQuote {σ : Type} (repo : QuoteRepository σ) (s : σ) (r : Request) :
    σ × Response :=
  match r.Body with
  | none => (s, httpError "Invalid request body" 400)
  | some quote =>
      let res := QuoteService.CreateQuote repo s r.now (some quote)
      match res.2.2 with
      | some err =>
          if errorsIs err .ErrEmptyAuthor then (res.1, httpError "Author cannot be empty" 400)
          else if errorsIs err .ErrEmptyText then
            (res.1, httpError "Quote text cannot be empty" 400)
          else (res.1, httpError "Failed to create quote" 500)
      | none => (res.1, { Code := 201, Body := .quote res.2.1 })

/-- The handler `QuoteHandler.GetAllQuotes`. -/
def QuoteHandler.GetAllQuotes {σ : Type} (repo : QuoteRepository σ) (s : σ) (_r : Request) :
    σ × Response :=
  let res := QuoteService.GetAllQuotes repo s
  match res.2.2 with
  | some _ => (res.1, httpError "Failed to get quotes" 500)
  | none => (res.1, { Code := 200, Body := .quotes res.2.1 })

/-- The handler `QuoteHandler.GetRandomQuote`. -/
def QuoteHandler.GetRandomQuote {σ : Type} (repo : QuoteRepository σ) (s : σ) (r : Request) :
    σ × Response :=
  let res := QuoteService.GetRandomQuote repo s r.seed
  match res.2.2 with
  | some err =>
      if errorsIs err .ErrNoQuotesAvailable then (res.1, httpError "No quotes available" 404)
      else (res.1, httpError "Failed to get random quote" 500)
  | none => (res.1, { Code := 200, Body := .quote res.2.1 })

/-- The handler `QuoteHandler.GetQuotesByAuthor`. -/
def QuoteHandler.GetQuotesByAuthor {σ : Type} (repo : QuoteRepository σ) (s : σ)
    (r : Request) : σ × Response :=
  let author := queryGet r.Query "author"
  if author = "" then (s, httpError "Author parameter is required" 400)
  else
    let res := QuoteService.GetQuotesByAuthor repo s author
    match res.2.2 with
    | some err =>
        if errorsIs err .ErrEmptyAuthor then (res.1, httpError "Author cannot be empty" 400)
        else (res.1, httpError "Failed to get quotes by author" 500)
    | none => (res.1, { Code := 200, Body := .quotes res.2.1 })

/-- The handler `QuoteHandler.DeleteQuote`; `vars` is `mux.Vars(r)`. -/
def QuoteHandler.DeleteQuote {σ : Type} (repo : QuoteRepository σ) (s : σ)
    (vars : List (String × String)) (_r : Request) : σ × Response :=
  match parseInt64 (queryGet vars "id") with
  | none => (s, httpError "Invalid quote ID" 400)
  | some id =>
      let res := QuoteService.DeleteQuote repo s id
      match res.2 with
      | some err =>
          if errorsIs err .ErrQuoteNotFound then (res.1, httpError "Quote not found" 404)
          else if errorsIs err .ErrInvalidID then (res.1, httpError "Invalid quote ID" 400)
          else (res.1, httpError "Failed to delete quote" 500)
      | none => (res.1, { Code := 204, Body := .empty })

/-! ## The route table of `cmd/quotes/main.go`

The router is `github.com/gorilla/mux` (v1.8.1), built by `mux.NewRouter()` with its default
settings.

* `Router.ServeHTTP` first brings the path to canonical form (`cleanPath`: `path.Clean`, with
  a trailing slash put back) and, when that changes the path, answers 301 with the canonical
  path as `Location` and does no matching.
* Routes are then tested in the order they were added to the router, and the first route all
  of whose matchers accept the request handles it.  A route built by
  `HandleFunc(path, h).Methods(m).Queries(k, "{v}")` has, in this order, a path matcher (the
  whole path must match the template; a variable `{id:[0-9]+}` matches one segment made of one
  or more decimal digits), a method matcher, and a query matcher that asks for the key `k` to
  be present in the query string, with any value (also the empty one).
* `Route.Match` runs all matchers of a route.  A matcher other than the method matcher that
  refuses ends the test of the route; a matcher that accepts clears a method mismatch recorded
  by an earlier route; when only the method matcher refused, the mismatch is recorded.
* When no route matches, the answer is 405 if a method mismatch is recorded at the end,
  else 404. -/

/-- The five handlers of `QuoteHandler`. -/
inductive HandlerName where
  | CreateQuote
  | GetAllQuotes
  | GetRandomQuote
  | GetQuotesByAuthor
  | DeleteQuote
  deriving DecidableEq, Repr

/-- One segment of a path template: literal text, or a variable with the pattern `[0-9]+`. -/
inductive PathPart where
  | lit (text : String)
  | digits (name : String)
  deriving DecidableEq, Repr

/-- A registered route: path template, accepted methods, query keys that must be present,
handler. -/
structure Route where
  Path : List PathPart
  Methods : List String
  Queries : List String
  Handler : HandlerName
  deriving DecidableEq, Repr

/-- The routes in the order `main` (and `setupTestServer` of the tests) registers them. -/
def routes : List Route :=
  [ { Path := [.lit "quotes"], Methods := ["POST"], Queries := [],
      Handler := .CreateQuote },
    { Path := [.lit "quotes"], Methods := ["GET"], Queries := [],
      Handler := .GetAllQuotes },
    { Path := [.lit "quotes", .lit "random"], Methods := ["GET"], Queries := [],
      Handler := .GetRandomQuote },
    { Path := [.lit "quotes"], Methods := ["GET"], Queries := ["author"],
      Handler := .GetQuotesByAuthor },
    { Path := [.lit "quotes", .digits "id"], Methods := ["DELETE"], Queries := [],
      Handler := .DeleteQuote } ]

/-- The path matcher: the variables bound when the template matches the whole path. -/
def matchPath : List PathPart → List String → Option (List (String × String))
  | [], [] => some []
  | .lit text :: parts, seg :: segs =>
      if seg = text then matchPath parts segs else none
  | .digits name :: parts, seg :: segs =>
      if seg.data ≠ [] ∧ seg.data.all Char.isDigit then
        (matchPath parts segs).map (fun vars => (name, seg) :: vars)
      else none
  | _, _ => none

/-- The query matcher: every required key occurs in the query string. -/
def matchQueries (keys : List String) (query : List (String × String)) : Bool :=
  keys.all (fun k => (query.lookup k).isSome)

/-- The outcome of testing one route against a request: all matchers accept; only the
method matcher refuses; the path matcher accepts and a query matcher refuses; the path
matcher refuses. -/
inductive RouteOutcome where
  | matched (vars : List (String × String))
  | methodMismatch
  | queryMismatch
  | noMatch
  deriving DecidableEq, Repr

/-- The method `Route.Match`: the path matcher, then the method matcher, then the query
matchers. -/
def Route.Match (route : Route) (r : Request) : RouteOutcome :=
  match matchPath route.Path r.Path with
  | none => .noMatch
  | some vars =>
      if matchQueries route.Queries r.Query then
        (if r.Method ∈ route.Methods then .matched vars else .methodMismatch)
      else .queryMismatch

/-- What the router decides for a request. -/
inductive RouterMatch where
  | handler (h : HandlerName) (vars : List (String × String))
  | methodNotAllowed
  | notFound
  deriving DecidableEq, Repr

/-- The method `Router.Match` over a route list: the first route that matches wins;
`methodMismatch` is whether `match.MatchErr` is `ErrMethodMismatch`.  A route whose path
matcher refuses leaves it as it is; a route whose path matcher accepts clears it, and sets it
again when its method matcher is the only one that refuses. -/
def routerMatch (r : Request) : List Route → Bool → RouterMatch
  | [], methodMismatch => if methodMismatch then .methodNotAllowed else .notFound
  | route :: rest, methodMismatch =>
      match route.Match r with
      | .matched vars => .handler route.Handler vars
      | .methodMismatch => routerMatch r rest true
      | .queryMismatch => routerMatch r rest false
      | .noMatch => routerMatch r rest methodMismatch

/-- Whether `cleanPath` returns the path it is given: no segment is `.` or `..`, and no
segment but the last is empty (an empty last segment is a trailing slash, which `cleanPath`
keeps).  The empty path is not clean: `cleanPath` turns it into `/`. -/
def pathIsClean : List String → Bool
  | [] => false
  | seg :: rest =>
      seg ≠ "." && seg ≠ ".." && (rest.isEmpty || (seg ≠ "" && pathIsClean rest))

/-- The method `Router.ServeHTTP` with the route table of `main`, over the service built on
`repo`: redirects a path that is not in canonical form, else picks the handler and runs
it. -/
def ServeHTTP {σ : Type} (repo : QuoteRepository σ) (s : σ) (r : Request) : σ × Response :=
  if pathIsClean r.Path then
    match routerMatch r routes false with
    | .handler .CreateQuote _ => QuoteHandler.CreateQuote repo s r
    | .handler .GetAllQuotes _ => QuoteHandler.GetAllQuotes repo s r
    | .handler .GetRandomQuote _ => QuoteHandler.GetRandomQuote repo s r
    | .handler .GetQuotesByAuthor _ => QuoteHandler.GetQuotesByAuthor repo s r
    | .handler .DeleteQuote vars => QuoteHandler.DeleteQuote repo s vars r
    | .methodNotAllowed => (s, { Code := 405, Body := .empty })
    | .notFound => (s, httpError "404 page not found" 404)
  else (s, { Code := 301, Body := .empty })

/-- The server `main` builds: the router over the service over the in-memory store. -/
def serve (s : QuoteStorage) (r : Request) : QuoteStorage × Response :=
  ServeHTTP memoryRepository s r

end Quotes

/-! ## Store operations, one call at a time -/

namespace Quotes

theorem Create_ok (s : QuoteStorage) (now : Nat) (quote : Quote)
    (ha : quote.Author ≠ "") (ht : quote.Text ≠ "") :
    s.Create now quote =
      ({ quotes := s.quotes ++ [⟨s.nextID, quote.Author, quote.Text, now⟩],
         nextID := s.nextID + 1 },
       ⟨s.nextID, quote.Author, quote.Text, now⟩, none) := by
  simp [QuoteStorage.Create, ha, ht]

theorem Create_emptyAuthor (s : QuoteStorage) (now : Nat) (quote : Quote)
    (ha : quote.Author = "") :
    s.Create now quote =
      (s, quote, some (.wrapError "storage.quotes.memory.Create" .ErrEmptyAuthor)) := by
  simp [QuoteStorage.Create, ha]

theorem Create_emptyText (s : QuoteStorage) (now : Nat) (quote : Quote)
    (ha : quote.Author ≠ "") (ht : quote.Text = "") :
    s.Create now quote =
      (s, quote, some (.wrapError "storage.quotes.memory.Create" .ErrEmptyText)) := by
  simp [QuoteStorage.Create, ha, ht]

theorem scan_eq_none_iff (id : Int) (quotes : List Quote) (i : Nat) :
    QuoteStorage.Delete.scan id quotes i = none ↔ ∀ q ∈ quotes, q.ID ≠ id := by
  induction quotes generalizing i with
  | nil => simp [QuoteStorage.Delete.scan]
  | cons q rest ih =>
      by_cases h : q.ID = id
      · simp [QuoteStorage.Delete.scan, h]
      · simp [QuoteStorage.Delete.scan, h, ih]

theorem loop_elems (author : String) (quotes : List Quote) (result : Option (List Quote)) :
    (QuoteStorage.GetByAuthor.loop author quotes result).getD [] =
      result.getD [] ++ quotes.filter (fun q => decide (q.Author = author)) := by
  induction quotes generalizing result with
  | nil => simp [QuoteStorage.GetByAuthor.loop]
  | cons q rest ih =>
      by_cases h : q.Author = author
      · cases result <;> simp [QuoteStorage.GetByAuthor.loop, h, ih, goAppend]
      · simp [QuoteStorage.GetByAuthor.loop, h, ih]

theorem Delete_not_carried (s : QuoteStorage) (id : Int)
    (habsent : ∀ q ∈ s.quotes, q.ID ≠ id) :
    s.Delete id =
      (s, some (.wrapError "storage.quotes.memory.Delete"
        (if id ≤ 0 then .ErrInvalidID else .ErrQuoteNotFound))) := by
  have hscan := (scan_eq_none_iff id s.quotes 0).2 habsent
  by_cases h : id ≤ 0
  · simp [QuoteStorage.Delete, h]
  · simp [QuoteStorage.Delete, h, hscan]

/-- C3.  For every store state and every id that no quote of the collection carries,
`Delete id` fails and returns the store as it was (collection and counter); the error wraps
`ErrInvalidID` when `id ≤ 0` and `ErrQuoteNotFound` when `0 < id`. -/
theorem Delete_absent (s : QuoteStorage) (id : Int) (habsent : ∀ q ∈ s.quotes, q.ID ≠ id) :
    (s.Delete id).1 = s ∧
    (id ≤ 0 → (s.Delete id).2 =
      some (.wrapError "storage.quotes.memory.Delete" .ErrInvalidID)) ∧
    (0 < id → (s.Delete id).2 =
      some (.wrapError "storage.quotes.memory.Delete" .ErrQuoteNotFound)) := by
  rw [Delete_not_carried s id habsent]
  refine ⟨rfl, ?_, ?_⟩
  · intro h
    simp [h]
  · intro h
    simp [not_le.mpr h]

theorem Delete_absent_witness :
    ((QuoteStorage.mk [⟨1, "A", "t", 0⟩] 2).Delete 999).1 = QuoteStorage.mk [⟨1, "A", "t", 0⟩] 2 ∧
    ((QuoteStorage.mk [⟨1, "A", "t", 0⟩] 2).Delete 999).2 =
      some (.wrapError "storage.quotes.memory.Delete" .ErrQuoteNotFound) :=
  have h := Delete_absent (QuoteStorage.mk [⟨1, "A", "t", 0⟩] 2) 999 (by decide)
  ⟨h.1, h.2.2 (by decide)⟩

/-- C4.  `Create` fails exactly when the author or the text is the empty string: with an
empty author the error wraps `ErrEmptyAuthor` whatever the text is, with a non-empty author and
an empty text it wraps `ErrEmptyText`, and with both non-empty the error is `nil`. -/
theorem Create_fails_iff (s : QuoteStorage) (now : Nat) (quote : Quote) :
    ((s.Create now quote).2.2 ≠ none ↔ quote.Author = "" ∨ quote.Text = "") ∧
    (quote.Author = "" → (s.Create now quote).2.2 =
      some (.wrapError "storage.quotes.memory.Create" .ErrEmptyAuthor)) ∧
    (quote.Author ≠ "" → quote.Text = "" → (s.Create now quote).2.2 =
      some (.wrapError "storage.quotes.memory.Create" .ErrEmptyText)) ∧
    (quote.Author ≠ "" → quote.Text ≠ "" → (s.Create now quote).2.2 = none) := by
  by_cases ha : quote.Author = ""
  · simp [Create_emptyAuthor s now quote ha, ha]
  · by_cases ht : quote.Text = ""
    · simp [Create_emptyText s now quote ha ht, ha, ht]
    · simp [Create_ok s now quote ha ht, ha, ht]

theorem wrapInt64_of_fits (x : Int) (hlo : -2 ^ 63 ≤ x) (hhi : x < 2 ^ 63) :
    wrapInt64 x = x := by
  unfold wrapInt64
  rw [Int.emod_eq_of_lt (by omega) (by omega)]
  omega

theorem CreateInt64_eq_Create (s : QuoteStorage) (now : Nat) (quote : Quote)
    (hlo : -2 ^ 63 ≤ s.nextID) (hbound : s.nextID < 2 ^ 63 - 1) :
    s.CreateInt64 now quote = s.Create now quote := by
  unfold QuoteStorage.CreateInt64 QuoteStorage.Create
  rw [wrapInt64_of_fits (s.nextID + 1) (by omega) (by omega)]

/-- C5.  For every store state whose counter is an `int64` value below the largest one,
`2 ^ 63 - 1`, and every quote with non-empty author and text, `Create` returns `nil`, leaves
the old collection with one quote appended at the end (id: the old counter, created_at: the
clock reading, author and text: those supplied), a counter one larger, and hands the caller
that same quote; the `ID` and `CreatedAt` supplied on input have no effect on any of it.
Stated for the method with its `int64` arithmetic, which on these states is
`QuoteStorage.Create`. -/
theorem Create_success (s : QuoteStorage) (now : Nat) (quote : Quote)
    (ha : quote.Author ≠ "") (ht : quote.Text ≠ "")
    (hlo : -2 ^ 63 ≤ s.nextID) (hbound : s.nextID < 2 ^ 63 - 1) :
    (s.CreateInt64 now quote).2.2 = none ∧
    (s.CreateInt64 now quote).1.quotes =
      s.quotes ++ [⟨s.nextID, quote.Author, quote.Text, now⟩] ∧
    (s.CreateInt64 now quote).1.nextID = s.nextID + 1 ∧
    (s.CreateInt64 now quote).2.1 = ⟨s.nextID, quote.Author, quote.Text, now⟩ ∧
    (∀ (id : Int) (createdAt : Nat),
      s.CreateInt64 now { quote with ID := id, CreatedAt := createdAt } =
        s.CreateInt64 now quote) ∧
    s.CreateInt64 now quote = s.Create now quote := by
  have heq := CreateInt64_eq_Create s now quote hlo hbound
  refine ⟨?_, ?_, ?_, ?_, ?_, heq⟩
  · rw [heq, Create_ok s now quote ha ht]
  · rw [heq, Create_ok s now quote ha ht]
  · rw [heq, Create_ok s now quote ha ht]
  · rw [heq, Create_ok s now quote ha ht]
  · intro id createdAt
    rw [heq, CreateInt64_eq_Create s now _ hlo hbound, Create_ok s now quote ha ht]
    exact Create_ok s now ⟨id, quote.Author, quote.Text, createdAt⟩ ha ht

theorem Create_success_witness :
    (NewQuoteStorage.CreateInt64 7 ⟨42, "Test Author", "Test Quote", 99⟩).1.quotes =
      NewQuoteStorage.quotes ++ [⟨NewQuoteStorage.nextID, "Test Author", "Test Quote", 7⟩] ∧
    (NewQuoteStorage.CreateInt64 7 ⟨42, "Test Author", "Test Quote", 99⟩).1.nextID =
      NewQuoteStorage.nextID + 1 ∧
    (NewQuoteStorage.CreateInt64 7 ⟨42, "Test Author", "Test Quote", 99⟩).2.1 =
      ⟨NewQuoteStorage.nextID, "Test Author", "Test Quote", 7⟩ :=
  have h := Create_success NewQuoteStorage 7 ⟨42, "Test Author", "Test Quote", 99⟩
    (by decide) (by decide) (by decide) (by decide)
  ⟨h.2.1, h.2.2.1, h.2.2.2.1⟩

/-- C5, the claim as stated fails: on the store whose counter is the largest `int64`
value, `Create` of a quote with non-empty author and text returns `nil` and leaves the
counter at the smallest `int64` value, `-2 ^ 63`, not at the old counter plus one. -/
theorem Create_counter_wraps_at_max :
    ((QuoteStorage.mk [] (2 ^ 63 - 1)).CreateInt64 0 ⟨0, "A", "x", 0⟩).2.2 = none ∧
    ((QuoteStorage.mk [] (2 ^ 63 - 1)).CreateInt64 0 ⟨0, "A", "x", 0⟩).1.nextID = -2 ^ 63 ∧
    ((QuoteStorage.mk [] (2 ^ 63 - 1)).CreateInt64 0 ⟨0, "A", "x", 0⟩).1.nextID ≠
      (QuoteStorage.mk [] (2 ^ 63 - 1)).nextID + 1 := by
  decide

theorem GetRandom_nonempty (s : QuoteStorage) (seed : Nat) (h : s.quotes ≠ []) :
    ∃ q, q ∈ s.quotes ∧ s.GetRandom seed = (s, some q, none) := by
  have hlen : ¬ s.quotes.length = 0 := by
    intro h0
    exact h (List.length_eq_zero.mp h0)
  refine ⟨s.quotes.get ⟨randIntN seed s.quotes.length,
    Nat.mod_lt seed (Nat.pos_of_ne_zero hlen)⟩, List.get_mem _ _ _, ?_⟩
  simp [QuoteStorage.GetRandom, hlen]

/-- C6.  `GetRandom` on a store with an empty collection fails with an error wrapping
`ErrNoQuotesAvailable`; on the store that a successful `Create` leaves, `GetRandom` returns
`nil` for every draw and the quote it returns is an element of what `GetAll` returns on
that store. -/
theorem GetRandom_spec :
    (∀ (s : QuoteStorage) (seed : Nat), s.quotes = [] →
      s.GetRandom seed =
        (s, none, some (.wrapError "storage.quotes.memory.GetRandom" .ErrNoQuotesAvailable))) ∧
    (∀ (s : QuoteStorage) (now : Nat) (quote : Quote) (seed : Nat),
      (s.Create now quote).2.2 = none →
      ∃ q all, (s.Create now quote).1.GetRandom seed = ((s.Create now quote).1, some q, none) ∧
        (s.Create now quote).1.GetAll.2.1 = some all ∧ q ∈ all) := by
  constructor
  · intro s seed h
    simp [QuoteStorage.GetRandom, h]
  · intro s now quote seed hok
    have hne : (s.Create now quote).1.quotes ≠ [] := by
      by_cases ha : quote.Author = ""
      · rw [Create_emptyAuthor s now quote ha] at hok
        simp at hok
      · by_cases ht : quote.Text = ""
        · rw [Create_emptyText s now quote ha ht] at hok
          simp at hok
        · rw [Create_ok s now quote ha ht]
          simp
    obtain ⟨q, hq, hget⟩ := GetRandom_nonempty (s.Create now quote).1 seed hne
    exact ⟨q, (s.Create now quote).1.quotes, hget, rfl, hq⟩

theorem GetRandom_spec_witness :
    NewQuoteStorage.GetRandom 5 =
      (NewQuoteStorage, none,
        some (.wrapError "storage.quotes.memory.GetRandom" .ErrNoQuotesAvailable)) ∧
    ∃ q all, (NewQuoteStorage.Create 1 ⟨0, "A", "t", 0⟩).1.GetRandom 5 =
        ((NewQuoteStorage.Create 1 ⟨0, "A", "t", 0⟩).1, some q, none) ∧
      (NewQuoteStorage.Create 1 ⟨0, "A", "t", 0⟩).1.GetAll.2.1 = some all ∧ q ∈ all :=
  ⟨GetRandom_spec.1 NewQuoteStorage 5 rfl,
   GetRandom_spec.2 NewQuoteStorage 1 ⟨0, "A", "t", 0⟩ 5 (by decide)⟩

/-- C7.  For every store state and every non-empty author, `GetByAuthor` returns `nil` as
error, leaves the store as it was, and returns exactly the quotes of the collection whose
`Author` equals the argument, in collection order (no quote at all when none matches); with
the empty string it fails with an error wrapping `ErrEmptyAuthor`. -/
theorem GetByAuthor_spec (s : QuoteStorage) :
    (∀ author : String, author ≠ "" →
      (s.GetByAuthor author).1 = s ∧
      (s.GetByAuthor author).2.2 = none ∧
      (s.GetByAuthor author).2.1.getD [] =
        s.quotes.filter (fun q => decide (q.Author = author)) ∧
      ((∀ q ∈ s.quotes, q.Author ≠ author) → (s.GetByAuthor author).2.1.getD [] = [])) ∧
    s.GetByAuthor "" =
      (s, none, some (.wrapError "storage.quotes.memory.GetByAuthor" .ErrEmptyAuthor)) := by
  constructor
  · intro author ha
    have hfilter : (s.GetByAuthor author).2.1.getD [] =
        s.quotes.filter (fun q => decide (q.Author = author)) := by
      simp [QuoteStorage.GetByAuthor, ha, loop_elems]
    refine ⟨by simp [QuoteStorage.GetByAuthor, ha], by simp [QuoteStorage.GetByAuthor, ha],
      hfilter, ?_⟩
    intro hnone
    rw [hfilter, List.filter_eq_nil_iff]
    intro q hq
    simpa using hnone q hq
  · simp [QuoteStorage.GetByAuthor]

theorem GetByAuthor_spec_witness :
    ((QuoteStorage.mk [⟨1, "A", "x", 0⟩, ⟨2, "B", "y", 0⟩, ⟨3, "A", "z", 0⟩] 4).GetByAuthor
        "A").2.1.getD [] = [⟨1, "A", "x", 0⟩, ⟨3, "A", "z", 0⟩] :=
  ((GetByAuthor_spec
    (QuoteStorage.mk [⟨1, "A", "x", 0⟩, ⟨2, "B", "y", 0⟩, ⟨3, "A", "z", 0⟩] 4)).1 "A"
    (by decide)).2.2.1.trans (by decide)

/-! ## Swap-with-last removal -/

theorem scan_eq_some (id : Int) (quotes : List Quote) (k i : Nat)
    (h : QuoteStorage.Delete.scan id quotes k = some i) :
    k ≤ i ∧ ∃ q, quotes[i - k]? = some q ∧ q.ID = id ∧
      ∀ j, j < i - k → ∀ q0, quotes[j]? = some q0 → q0.ID ≠ id := by
  induction quotes generalizing k with
  | nil => simp [QuoteStorage.Delete.scan] at h
  | cons q rest ih =>
      by_cases hq : q.ID = id
      · simp [QuoteStorage.Delete.scan, hq] at h
        subst h
        exact ⟨le_refl _, q, by simp, hq, by simp⟩
      · simp [QuoteStorage.Delete.scan, hq] at h
        obtain ⟨hle, q1, hget, hid, hfirst⟩ := ih (k + 1) h
        have hk : i - k = (i - (k + 1)) + 1 := by omega
        refine ⟨by omega, q1, ?_, hid, ?_⟩
        · rw [hk, List.getElem?_cons_succ]
          exact hget
        · intro j hj q0 hq0
          cases j with
          | zero =>
              simp at hq0
              subst hq0
              exact hq
          | succ j =>
              rw [List.getElem?_cons_succ] at hq0
              exact hfirst j (by omega) q0 hq0

theorem swapRemove_concat (init : List Quote) (last : Quote) (i : Nat) :
    swapRemove (init ++ [last]) i = init.set i last := by
  unfold swapRemove
  rw [List.getLast?_concat]
  by_cases h : i < init.length
  · simp [List.set_append_left, h, List.take_left']
  · have hle : init.length ≤ i := not_lt.mp h
    rw [List.set_eq_of_length_le hle]
    rcases Nat.eq_or_lt_of_le hle with heq | hlt
    · subst heq
      simp [List.set_append_right, List.take_left']
    · have hlen : (init ++ [last]).length ≤ i := by
        rw [List.length_append, List.length_singleton]
        omega
      simp only [List.set_eq_of_length_le hlen]
      simp [List.take_left']

theorem cons_perm_cons_set {α : Type} (l : List α) (i : Nat) (x q : α)
    (h : l[i]? = some q) : List.Perm (x :: l) (q :: l.set i x) := by
  induction l generalizing i with
  | nil => simp at h
  | cons a t ih =>
      cases i with
      | zero =>
          simp at h
          subst h
          simpa using List.Perm.swap a x t
      | succ j =>
          rw [List.getElem?_cons_succ] at h
          have h1 : List.Perm (x :: a :: t) (a :: x :: t) := List.Perm.swap a x t
          have h2 : List.Perm (a :: x :: t) (a :: q :: t.set j x) := (ih j h).cons a
          have h3 : List.Perm (a :: q :: t.set j x) (q :: a :: t.set j x) :=
            List.Perm.swap q a _
          simpa using (h1.trans h2).trans h3

theorem swapRemove_perm (quotes : List Quote) (i : Nat) (q : Quote)
    (h : quotes[i]? = some q) : List.Perm quotes (q :: swapRemove quotes i) := by
  have hne : quotes ≠ [] := by
    intro h0
    subst h0
    simp at h
  obtain ⟨init, last, rfl⟩ : ∃ init last, quotes = init ++ [last] :=
    ⟨quotes.dropLast, quotes.getLast hne, (List.dropLast_append_getLast hne).symm⟩
  rw [swapRemove_concat]
  have hmove : List.Perm (init ++ [last]) (last :: init) := by
    exact List.perm_append_comm
  by_cases hi : i < init.length
  · have hget : init[i]? = some q := by
      rw [List.getElem?_append_left hi] at h
      exact h
    exact hmove.trans (cons_perm_cons_set init i last q hget)
  · have hle : init.length ≤ i := not_lt.mp hi
    rw [List.set_eq_of_length_le hle]
    rw [List.getElem?_append_right hle] at h
    have hq : last = q := by
      cases hsub : i - init.length with
      | zero => rw [hsub] at h; simpa using h
      | succ n => rw [hsub] at h; simp at h
    rw [← hq]
    exact hmove

/-- A successful `Delete`: the scan finds a quote with the id, the collection loses that
quote and nothing else, and the counter stays. -/
theorem Delete_present (s : QuoteStorage) (id : Int) (hpos : 0 < id)
    (hmem : ∃ q ∈ s.quotes, q.ID = id) :
    ∃ q, q.ID = id ∧ (s.Delete id).2 = none ∧ (s.Delete id).1.nextID = s.nextID ∧
      List.Perm s.quotes (q :: (s.Delete id).1.quotes) := by
  cases hscan : QuoteStorage.Delete.scan id s.quotes 0 with
  | none =>
      obtain ⟨q, hq, hid⟩ := hmem
      exact absurd hid ((scan_eq_none_iff id s.quotes 0).1 hscan q hq)
  | some i =>
      obtain ⟨_, q, hget, hid, _⟩ := scan_eq_some id s.quotes 0 i hscan
      have hnot : ¬ id ≤ 0 := not_le.mpr hpos
      refine ⟨q, hid, ?_, ?_, ?_⟩
      · simp [QuoteStorage.Delete, hnot, hscan]
      · simp [QuoteStorage.Delete, hnot, hscan]
      · simpa [QuoteStorage.Delete, hnot, hscan] using swapRemove_perm s.quotes i q hget

/-- Whatever `Delete` returns, the collection it leaves is the old one or the old one
without one quote, and the counter is the old one. -/
theorem Delete_cases (s : QuoteStorage) (id : Int) :
    ((s.Delete id).1 = s ∧ (s.Delete id).2 ≠ none) ∨
    (∃ q, q.ID = id ∧ (s.Delete id).2 = none ∧ (s.Delete id).1.nextID = s.nextID ∧
      List.Perm s.quotes (q :: (s.Delete id).1.quotes)) := by
  by_cases hpos : 0 < id
  · by_cases hmem : ∃ q ∈ s.quotes, q.ID = id
    · exact Or.inr (Delete_present s id hpos hmem)
    · have habsent : ∀ q ∈ s.quotes, q.ID ≠ id := fun q hq hid => hmem ⟨q, hq, hid⟩
      rw [Delete_not_carried s id habsent]
      exact Or.inl ⟨rfl, by simp⟩
  · have hle : id ≤ 0 := not_lt.mp hpos
    exact Or.inl ⟨by simp [QuoteStorage.Delete, hle], by simp [QuoteStorage.Delete, hle]⟩

/-! ## Runs of calls -/

/-- The three ways a call can act on the store: it leaves it as it was; it is a successful
create, which appends a quote carrying the counter as id and bumps the counter; it is a
successful delete, which removes one quote and keeps the counter. -/
theorem step_cases (s : QuoteStorage) (op : Op) :
    ((step s op).1 = s ∧ (step s op).2.assignedID = none ∧
      (step s op).2.createSucceeded = false) ∨
    (∃ (now : Nat) (author text : String), author ≠ "" ∧ text ≠ "" ∧
      (step s op).1 = { quotes := s.quotes ++ [⟨s.nextID, author, text, now⟩],
                        nextID := s.nextID + 1 } ∧
      (step s op).2.assignedID = some s.nextID ∧ (step s op).2.createSucceeded = true) ∨
    (∃ q, (step s op).1.nextID = s.nextID ∧
      List.Perm s.quotes (q :: (step s op).1.quotes) ∧
      (step s op).2.assignedID = none ∧ (step s op).2.createSucceeded = false) := by
  cases op with
  | create now quote =>
      by_cases ha : quote.Author = ""
      · left
        simp [step, Create_emptyAuthor s now quote ha, Result.assignedID,
          Result.createSucceeded]
      · by_cases ht : quote.Text = ""
        · left
          simp [step, Create_emptyText s now quote ha ht, Result.assignedID,
            Result.createSucceeded]
        · right
          left
          exact ⟨now, quote.Author, quote.Text, ha, ht, by
            simp [step, Create_ok s now quote ha ht, Result.assignedID, Result.createSucceeded]⟩
  | getAll => left; simp [step, QuoteStorage.GetAll, Result.assignedID, Result.createSucceeded]
  | getRandom seed =>
      left
      refine ⟨?_, by simp [step, Result.assignedID], by simp [step, Result.createSucceeded]⟩
      by_cases h : s.quotes.length = 0 <;> simp [step, QuoteStorage.GetRandom, h]
  | getByAuthor author =>
      left
      refine ⟨?_, by simp [step, Result.assignedID], by simp [step, Result.createSucceeded]⟩
      by_cases h : author = "" <;> simp [step, QuoteStorage.GetByAuthor, h]
  | delete id =>
      rcases Delete_cases s id with ⟨hsame, _⟩ | ⟨q, _, _, hnext, hperm⟩
      · left
        exact ⟨by simpa [step] using hsame, by simp [step, Result.assignedID],
          by simp [step, Result.createSucceeded]⟩
      · right
        right
        exact ⟨q, by simpa [step] using hnext, by simpa [step] using hperm,
          by simp [step, Result.assignedID], by simp [step, Result.createSucceeded]⟩

theorem Inv_fresh : Inv NewQuoteStorage where
  pos := by simp [NewQuoteStorage]
  below := by simp [NewQuoteStorage]
  nodup := by simp [NewQuoteStorage]
  author := by simp [NewQuoteStorage]
  text := by simp [NewQuoteStorage]
  counter := by simp [NewQuoteStorage]

theorem Inv_step (s : QuoteStorage) (op : Op) (h : Inv s) : Inv (step s op).1 := by
  rcases step_cases s op with ⟨hsame, _⟩ | ⟨now, author, text, ha, ht, hstate, _⟩ |
    ⟨q, hnext, hperm, _⟩
  · rw [hsame]
    exact h
  · rw [hstate]
    refine ⟨?_, ?_, ?_, ?_, ?_, ?_⟩
    · intro q hq
      rcases List.mem_append.mp hq with hq | hq
      · exact h.pos q hq
      · rw [List.mem_singleton.mp hq]
        exact h.counter
    · intro q hq
      rcases List.mem_append.mp hq with hq | hq
      · exact lt_trans (h.below q hq) (by simp)
      · rw [List.mem_singleton.mp hq]
        simp
    · simp only [List.map_append, List.map_cons, List.map_nil]
      refine List.Nodup.append h.nodup (List.nodup_singleton _) ?_
      intro i hi hi2
      rw [List.mem_singleton.mp hi2] at hi
      obtain ⟨q, hq, hid⟩ := List.mem_map.mp hi
      exact absurd hid (ne_of_lt (h.below q hq))
    · intro q hq
      rcases List.mem_append.mp hq with hq | hq
      · exact h.author q hq
      · rw [List.mem_singleton.mp hq]
        exact ha
    · intro q hq
      rcases List.mem_append.mp hq with hq | hq
      · exact h.text q hq
      · rw [List.mem_singleton.mp hq]
        exact ht
    · exact lt_trans h.counter (by simp)
  · have hsub : ∀ q0 ∈ (step s op).1.quotes, q0 ∈ s.quotes := fun q0 hq0 =>
      hperm.symm.subset (List.mem_cons_of_mem q hq0)
    refine ⟨fun q0 hq0 => h.pos q0 (hsub q0 hq0), ?_, ?_,
      fun q0 hq0 => h.author q0 (hsub q0 hq0), fun q0 hq0 => h.text q0 (hsub q0 hq0), ?_⟩
    · intro q0 hq0
      rw [hnext]
      exact h.below q0 (hsub q0 hq0)
    · have hnd : (List.map Quote.ID (q :: (step s op).1.quotes)).Nodup :=
        (hperm.map Quote.ID).nodup_iff.mp h.nodup
      exact (List.nodup_cons.mp hnd).2
    · rw [hnext]
      exact h.counter

theorem Inv_run (s : QuoteStorage) (ops : List Op) (h : Inv s) : Inv (run s ops).1 := by
  induction ops generalizing s with
  | nil => exact h
  | cons op ops ih => exact ih (step s op).1 (Inv_step s op h)

theorem Inv_of_Reachable (s : QuoteStorage) (h : Reachable s) : Inv s := by
  obtain ⟨ops, rfl⟩ := h
  exact Inv_run NewQuoteStorage ops Inv_fresh

theorem run_cons (s : QuoteStorage) (op : Op) (ops : List Op) :
    run s (op :: ops) = ((run (step s op).1 ops).1, (step s op).2 :: (run (step s op).1 ops).2) :=
  rfl

/-- Every `GET /quotes` request, whatever its query string, matches the route of
`GetAllQuotes`, which is registered before the route that asks for the `author` key. -/
theorem routerMatch_GET_quotes (query : List (String × String)) (body : Option Quote)
    (now seed : Nat) :
    routerMatch ⟨"GET", ["quotes"], query, body, now, seed⟩ routes false =
      .handler .GetAllQuotes [] := by
  simp [routerMatch, routes, Route.Match, matchPath, matchQueries]

theorem pathIsClean_quotes : pathIsClean ["quotes"] = true := by decide

theorem pathIsClean_quotes_random : pathIsClean ["quotes", "random"] = true := by decide

theorem pathIsClean_quotes_segment (seg : String) :
    pathIsClean ["quotes", seg] = (decide (seg ≠ ".") && decide (seg ≠ "..")) := by
  simp [pathIsClean]

/-- Every `GET /quotes` request on the in-memory store, whatever its query string, is
answered 200 with the whole collection. -/
theorem serve_GET_quotes (s : QuoteStorage) (query : List (String × String))
    (body : Option Quote) (now seed : Nat) :
    serve s ⟨"GET", ["quotes"], query, body, now, seed⟩ =
      (s, { Code := 200, Body := .quotes (some s.quotes) }) := by
  simp [serve, ServeHTTP, pathIsClean_quotes, routerMatch_GET_quotes,
    QuoteHandler.GetAllQuotes, QuoteService.GetAllQuotes, memoryRepository,
    QuoteStorage.GetAll]

/-- C10.  On a store holding a quote by `A` and a quote by `B`, the request
`GET /quotes?author=A` is routed to `GetAllQuotes`, the first route registered for `GET
/quotes`, and the 200 response carries both quotes, the one by `B` included; the handler
`GetQuotesByAuthor` on the same store and request answers with the quote by `A` alone. -/
theorem get_quotes_author_query_routed_to_GetAllQuotes :
    routerMatch ⟨"GET", ["quotes"], [("author", "A")], none, 0, 0⟩ routes false =
      .handler .GetAllQuotes [] ∧
    (serve (QuoteStorage.mk [⟨1, "A", "x", 5⟩, ⟨2, "B", "y", 6⟩] 3)
      ⟨"GET", ["quotes"], [("author", "A")], none, 0, 0⟩).2 =
      { Code := 200, Body := .quotes (some [⟨1, "A", "x", 5⟩, ⟨2, "B", "y", 6⟩]) } ∧
    (QuoteHandler.GetQuotesByAuthor memoryRepository
      (QuoteStorage.mk [⟨1, "A", "x", 5⟩, ⟨2, "B", "y", 6⟩] 3)
      ⟨"GET", ["quotes"], [("author", "A")], none, 0, 0⟩).2 =
      { Code := 200, Body := .quotes (some [⟨1, "A", "x", 5⟩]) } := by
  refine ⟨by decide, by decide, by decide⟩

/-! ## Requests through the router -/

theorem serve_GET_random (s : QuoteStorage) (query : List (String × String))
    (body : Option Quote) (now seed : Nat) :
    serve s ⟨"GET", ["quotes", "random"], query, body, now, seed⟩ =
      QuoteHandler.GetRandomQuote memoryRepository s
        ⟨"GET", ["quotes", "random"], query, body, now, seed⟩ := by
  simp [serve, ServeHTTP, pathIsClean_quotes_random, routerMatch, routes, Route.Match,
    matchPath, matchQueries]

/-- C11.  For every store content, the request `GET /quotes?author=` (the key `author`
present with an empty value) is answered with status 200: like every `GET /quotes` request
it is served by the route registered first for that path and method. -/
theorem get_quotes_empty_author_status (s : QuoteStorage) (body : Option Quote)
    (now seed : Nat) :
    (serve s ⟨"GET", ["quotes"], [("author", "")], body, now, seed⟩).2.Code = 200 := by
  rw [serve_GET_quotes]

/-- C11, the claim as stated fails: on a fresh store `GET /quotes?author=` is answered 200
with an empty list, not 400. -/
theorem get_quotes_empty_author_not_400 :
    (serve NewQuoteStorage ⟨"GET", ["quotes"], [("author", "")], none, 0, 0⟩).2 =
      { Code := 200, Body := .quotes (some []) } ∧
    (serve NewQuoteStorage ⟨"GET", ["quotes"], [("author", "")], none, 0, 0⟩).2.Code ≠ 400 := by
  decide

/-! ## `POST /quotes` -/

/-- C14.  The handler `GetRandomQuote` over the service and the in-memory store, which the
router runs for `GET /quotes/random`: on a store with an empty collection the answer is 404
"No quotes available"; on any other store it is 200 with a quote of the collection, for
every draw; on a store holding a single quote the answer carries that quote. -/
theorem GetRandomQuote_handler_spec (s : QuoteStorage) (query : List (String × String))
    (body : Option Quote) (now seed : Nat) :
    (s.quotes = [] →
      serve s ⟨"GET", ["quotes", "random"], query, body, now, seed⟩ =
        (s, httpError "No quotes available" 404)) ∧
    (s.quotes ≠ [] → ∃ q ∈ s.quotes,
      serve s ⟨"GET", ["quotes", "random"], query, body, now, seed⟩ =
        (s, { Code := 200, Body := .quote (some q) })) ∧
    (∀ q : Quote, s.quotes = [q] →
      serve s ⟨"GET", ["quotes", "random"], query, body, now, seed⟩ =
        (s, { Code := 200, Body := .quote (some q) })) := by
  have hne : s.quotes ≠ [] → ∃ q ∈ s.quotes,
      serve s ⟨"GET", ["quotes", "random"], query, body, now, seed⟩ =
        (s, { Code := 200, Body := .quote (some q) }) := by
    intro h
    obtain ⟨q, hq, hget⟩ := GetRandom_nonempty s seed h
    refine ⟨q, hq, ?_⟩
    rw [serve_GET_random]
    simp [QuoteHandler.GetRandomQuote, QuoteService.GetRandomQuote, memoryRepository, hget]
  refine ⟨?_, hne, ?_⟩
  · intro h
    rw [serve_GET_random]
    simp [QuoteHandler.GetRandomQuote, QuoteService.GetRandomQuote, memoryRepository,
      QuoteStorage.GetRandom, h, errorsIs]
  · intro q hq
    obtain ⟨q0, hq0, hserve⟩ := hne (by rw [hq]; simp)
    rw [hq, List.mem_singleton] at hq0
    rw [hserve, hq0]

theorem GetRandomQuote_handler_spec_witness :
    serve NewQuoteStorage ⟨"GET", ["quotes", "random"], [], none, 0, 3⟩ =
      (NewQuoteStorage, httpError "No quotes available" 404) ∧
    serve (QuoteStorage.mk [⟨1, "Test Author", "Test Quote", 7⟩] 2)
      ⟨"GET", ["quotes", "random"], [], none, 0, 3⟩ =
      (QuoteStorage.mk [⟨1, "Test Author", "Test Quote", 7⟩] 2,
        { Code := 200, Body := .quote (some ⟨1, "Test Author", "Test Quote", 7⟩) }) :=
  ⟨(GetRandomQuote_handler_spec NewQuoteStorage [] none 0 3).1 rfl,
   (GetRandomQuote_handler_spec (QuoteStorage.mk [⟨1, "Test Author", "Test Quote", 7⟩] 2)
      [] none 0 3).2.2 ⟨1, "Test Author", "Test Quote", 7⟩ rfl⟩

/-! ## `DELETE /quotes/{id}` -/

theorem parseInt64_digits (seg : String) (h1 : seg.data ≠ [])
    (h2 : seg.data.all Char.isDigit = true) :
    parseInt64 seg =
      if digitsValue seg.data < 2 ^ 63 then some (digitsValue seg.data : Int) else none := by
  unfold parseInt64
  cases hdata : seg.data with
  | nil => exact absurd hdata h1
  | cons c cs =>
      rw [hdata] at h2
      have hc : c.isDigit = true := by
        simp only [List.all_cons, Bool.and_eq_true] at h2
        exact h2.1
      have hminus : c ≠ '-' := by
        intro h
        rw [h] at hc
        exact absurd hc (by decide)
      have hplus : c ≠ '+' := by
        intro h
        rw [h] at hc
        exact absurd hc (by decide)
      split
      · rename_i cs0 heq
        exact absurd (List.cons.inj heq).1 hminus
      · rename_i cs0 heq
        exact absurd (List.cons.inj heq).1 hplus
      · rename_i cs0 _ _
        simp [h2]

theorem serve_DELETE_digits (s : QuoteStorage) (seg : String) (query : List (String × String))
    (body : Option Quote) (now seed : Nat) (h1 : seg.data ≠ [])
    (h2 : seg.data.all Char.isDigit = true) :
    serve s ⟨"DELETE", ["quotes", seg], query, body, now, seed⟩ =
      QuoteHandler.DeleteQuote memoryRepository s [("id", seg)]
        ⟨"DELETE", ["quotes", seg], query, body, now, seed⟩ := by
  have hrandom : seg ≠ "random" := by
    intro h
    rw [h] at h2
    exact absurd h2 (by decide)
  have hdot : seg ≠ "." := by
    intro h
    rw [h] at h2
    exact absurd h2 (by decide)
  have hdotdot : seg ≠ ".." := by
    intro h
    rw [h] at h2
    exact absurd h2 (by decide)
  have h3 : ∀ x ∈ seg.data, x.isDigit = true := by simpa using h2
  simp [serve, ServeHTTP, pathIsClean_quotes_segment, hdot, hdotdot, routerMatch, routes,
    Route.Match, matchPath, matchQueries, hrandom, h1]
  rw [if_pos h3]

/-- A `DELETE` request on a canonical two-segment path under `quotes` whose second segment
is neither a digit string nor `random` matches no route. -/
theorem serve_DELETE_other (s : QuoteStorage) (seg : String) (query : List (String × String))
    (body : Option Quote) (now seed : Nat)
    (hseg : ¬ (seg.data ≠ [] ∧ seg.data.all Char.isDigit = true)) (hrandom : seg ≠ "random")
    (hdot : seg ≠ ".") (hdotdot : seg ≠ "..") :
    serve s ⟨"DELETE", ["quotes", seg], query, body, now, seed⟩ =
      (s, httpError "404 page not found" 404) := by
  have h3 : ¬ (¬ seg.data = [] ∧ ∀ x ∈ seg.data, x.isDigit = true) := by simpa using hseg
  simp [serve, ServeHTTP, pathIsClean_quotes_segment, hdot, hdotdot, routerMatch, routes,
    Route.Match, matchPath, matchQueries, hrandom]
  rw [if_neg h3]

/-- A request on `/quotes/.` or `/quotes/..` is redirected to the canonical path before any
route is tested. -/
theorem serve_dot_segment (s : QuoteStorage) (method seg : String)
    (query : List (String × String)) (body : Option Quote) (now seed : Nat)
    (hseg : seg = "." ∨ seg = "..") :
    serve s ⟨method, ["quotes", seg], query, body, now, seed⟩ =
      (s, { Code := 301, Body := .empty }) := by
  rcases hseg with h | h <;> simp [serve, ServeHTTP, pathIsClean_quotes_segment, h]

theorem serve_DELETE_random (s : QuoteStorage) (query : List (String × String))
    (body : Option Quote) (now seed : Nat) :
    serve s ⟨"DELETE", ["quotes", "random"], query, body, now, seed⟩ =
      (s, { Code := 405, Body := .empty }) := by
  simp [serve, ServeHTTP, pathIsClean_quotes_random, routerMatch, routes, Route.Match,
    matchPath, matchQueries]

theorem DeleteQuote_handler_parse_error (s : QuoteStorage) (vars : List (String × String))
    (r : Request) (h : parseInt64 (queryGet vars "id") = none) :
    QuoteHandler.DeleteQuote memoryRepository s vars r =
      (s, httpError "Invalid quote ID" 400) := by
  simp [QuoteHandler.DeleteQuote, h]

theorem DeleteQuote_handler_nonpositive (s : QuoteStorage) (vars : List (String × String))
    (r : Request) (id : Int) (h : parseInt64 (queryGet vars "id") = some id) (hid : id ≤ 0) :
    QuoteHandler.DeleteQuote memoryRepository s vars r =
      (s, httpError "Invalid quote ID" 400) := by
  simp [QuoteHandler.DeleteQuote, h, QuoteService.DeleteQuote, hid, errorsIs]

theorem DeleteQuote_handler_absent (s : QuoteStorage) (vars : List (String × String))
    (r : Request) (id : Int) (h : parseInt64 (queryGet vars "id") = some id) (hid : 0 < id)
    (habsent : ∀ q ∈ s.quotes, q.ID ≠ id) :
    QuoteHandler.DeleteQuote memoryRepository s vars r =
      (s, httpError "Quote not found" 404) := by
  have hnot : ¬ id ≤ 0 := not_le.mpr hid
  simp [QuoteHandler.DeleteQuote, h, QuoteService.DeleteQuote, hnot, memoryRepository,
    Delete_not_carried s id habsent, errorsIs]

theorem DeleteQuote_handler_present (s : QuoteStorage) (vars : List (String × String))
    (r : Request) (id : Int) (h : parseInt64 (queryGet vars "id") = some id) (hid : 0 < id)
    (hmem : ∃ q ∈ s.quotes, q.ID = id) :
    QuoteHandler.DeleteQuote memoryRepository s vars r =
      ((s.Delete id).1, { Code := 204, Body := .empty }) := by
  have hnot : ¬ id ≤ 0 := not_le.mpr hid
  obtain ⟨_, _, hnil, _, _⟩ := Delete_present s id hid hmem
  simp [QuoteHandler.DeleteQuote, h, QuoteService.DeleteQuote, hnot, memoryRepository, hnil]

/-- In a store that satisfies the invariant, a successful `Delete` removes the one quote that
carries the id, and no remaining quote carries it. -/
theorem Delete_present_Inv (s : QuoteStorage) (hinv : Inv s) (q : Quote) (hq : q ∈ s.quotes) :
    List.Perm s.quotes (q :: (s.Delete q.ID).1.quotes) ∧
    ∀ q0 ∈ (s.Delete q.ID).1.quotes, q0.ID ≠ q.ID := by
  obtain ⟨q1, hid, _, _, hperm⟩ := Delete_present s q.ID (hinv.pos q hq) ⟨q, hq, rfl⟩
  have hnd : (List.map Quote.ID (q1 :: (s.Delete q.ID).1.quotes)).Nodup :=
    (hperm.map Quote.ID).nodup_iff.mp hinv.nodup
  rw [List.map_cons, List.nodup_cons] at hnd
  have hgone : ∀ q0 ∈ (s.Delete q.ID).1.quotes, q0.ID ≠ q.ID := by
    intro q0 hq0 heq
    exact hnd.1 (List.mem_map.mpr ⟨q0, hq0, heq.trans hid.symm⟩)
  have hq1 : q1 = q := by
    rcases List.mem_cons.mp (hperm.subset hq) with h | h
    · exact h.symm
    · exact absurd rfl (hgone q h)
  rw [hq1] at hperm
  exact ⟨hperm, hgone⟩

/-- C13.  For every store and every request `DELETE /quotes/seg`.  When `seg` is a
non-empty string of decimal digits with value `n`: the answer is 400 "Invalid quote ID"
and the store is unchanged when `n = 0` or `n` does not fit `int64`; 404 "Quote not found"
and the store is unchanged when `0 < n` fits and no quote has id `n`; 204 with an empty
body when `0 < n` fits and a quote has id `n`, and then the new collection is the old one
without a quote of id `n` (in a reachable store no quote of id `n` remains).  When `seg` is
a path segment that is not a string of digits and is none of `random`, `.` and `..`, no
route matches and the answer is 404; for `.` and `..` the router redirects with 301, and for
`random` it answers 405. -/
theorem DeleteQuote_route_spec (s : QuoteStorage) (seg : String)
    (query : List (String × String)) (body : Option Quote) (now seed : Nat) :
    (seg.data ≠ [] → seg.data.all Char.isDigit = true →
      (digitsValue seg.data = 0 ∨ 2 ^ 63 ≤ digitsValue seg.data →
        serve s ⟨"DELETE", ["quotes", seg], query, body, now, seed⟩ = (s, httpError "Invalid quote ID" 400)) ∧
      (0 < digitsValue seg.data → digitsValue seg.data < 2 ^ 63 →
        (∀ q ∈ s.quotes, q.ID ≠ (digitsValue seg.data : Int)) →
        serve s ⟨"DELETE", ["quotes", seg], query, body, now, seed⟩ = (s, httpError "Quote not found" 404)) ∧
      (0 < digitsValue seg.data → digitsValue seg.data < 2 ^ 63 →
        (∃ q ∈ s.quotes, q.ID = (digitsValue seg.data : Int)) →
        (serve s ⟨"DELETE", ["quotes", seg], query, body, now, seed⟩).2 = { Code := 204, Body := .empty } ∧
        (serve s ⟨"DELETE", ["quotes", seg], query, body, now, seed⟩).1.nextID = s.nextID ∧
        (∃ q, q.ID = (digitsValue seg.data : Int) ∧
          List.Perm s.quotes (q :: (serve s ⟨"DELETE", ["quotes", seg], query, body, now, seed⟩).1.quotes)) ∧
        (Reachable s → ∀ q0 ∈ (serve s ⟨"DELETE", ["quotes", seg], query, body, now, seed⟩).1.quotes, q0.ID ≠ (digitsValue seg.data : Int)))) ∧
    (¬ (seg.data ≠ [] ∧ seg.data.all Char.isDigit = true) → '/' ∉ seg.data →
      seg ≠ "random" → seg ≠ "." → seg ≠ ".." →
      serve s ⟨"DELETE", ["quotes", seg], query, body, now, seed⟩ =
        (s, httpError "404 page not found" 404)) ∧
    (seg = "." ∨ seg = ".." →
      serve s ⟨"DELETE", ["quotes", seg], query, body, now, seed⟩ =
        (s, { Code := 301, Body := .empty })) ∧
    (seg = "random" →
      serve s ⟨"DELETE", ["quotes", seg], query, body, now, seed⟩ =
        (s, { Code := 405, Body := .empty })) := by
  refine ⟨?_, fun hseg _ => serve_DELETE_other s seg query body now seed hseg,
    serve_dot_segment s "DELETE" seg query body now seed,
    fun h => by rw [h]; exact serve_DELETE_random s query body now seed⟩
  intro h1 h2
  have hget : queryGet [("id", seg)] "id" = seg := by simp [queryGet, List.lookup]
  have hparse : parseInt64 (queryGet [("id", seg)] "id") =
      if digitsValue seg.data < 2 ^ 63 then some (digitsValue seg.data : Int) else none := by
    rw [hget]
    exact parseInt64_digits seg h1 h2
  rw [serve_DELETE_digits s seg query body now seed h1 h2]
  refine ⟨?_, ?_, ?_⟩
  · rintro (h0 | hbig)
    · rw [h0] at hparse
      exact DeleteQuote_handler_nonpositive s _ _ 0 (by rw [hparse]; simp) (le_refl 0)
    · rw [if_neg (not_lt.mpr hbig)] at hparse
      exact DeleteQuote_handler_parse_error s _ _ hparse
  · intro hpos hfit habsent
    rw [if_pos hfit] at hparse
    exact DeleteQuote_handler_absent s _ _ _ hparse (by exact_mod_cast hpos) habsent
  · intro hpos hfit hmem
    rw [if_pos hfit] at hparse
    have hid : (0 : Int) < (digitsValue seg.data : Int) := by exact_mod_cast hpos
    rw [DeleteQuote_handler_present s _ _ _ hparse hid hmem]
    obtain ⟨q1, hq1, _, hnext, hperm⟩ := Delete_present s _ hid hmem
    refine ⟨rfl, hnext, ⟨q1, hq1, hperm⟩, ?_⟩
    intro hreach
    obtain ⟨q, hq, hqid⟩ := hmem
    have h := (Delete_present_Inv s (Inv_of_Reachable s hreach) q hq).2
    rw [hqid] at h
    exact h

theorem DeleteQuote_route_spec_witness :
    serve (QuoteStorage.mk [⟨1, "Test Author", "Test Quote", 7⟩] 2)
      ⟨"DELETE", ["quotes", "999"], [], none, 0, 0⟩ =
      (QuoteStorage.mk [⟨1, "Test Author", "Test Quote", 7⟩] 2,
        httpError "Quote not found" 404) ∧
    serve (QuoteStorage.mk [⟨1, "Test Author", "Test Quote", 7⟩] 2)
      ⟨"DELETE", ["quotes", "invalid"], [], none, 0, 0⟩ =
      (QuoteStorage.mk [⟨1, "Test Author", "Test Quote", 7⟩] 2,
        httpError "404 page not found" 404) :=
  ⟨((DeleteQuote_route_spec (QuoteStorage.mk [⟨1, "Test Author", "Test Quote", 7⟩] 2) "999"
      [] none 0 0).1 (by decide) (by decide)).2.1 (by decide) (by decide) (by decide),
   (DeleteQuote_route_spec (QuoteStorage.mk [⟨1, "Test Author", "Test Quote", 7⟩] 2) "invalid"
      [] none 0 0).2.1 (by decide) (by decide) (by decide) (by decide) (by decide)⟩

/-- C13, the claim as stated fails: `random` is a segment that is not all digits, and
`DELETE /quotes/random` is answered 405, not 404, because the path matches the route of
`GET /quotes/random` and only its method matcher refuses. -/
theorem delete_random_segment_405 :
    ("random".data.all Char.isDigit = false) ∧
    serve NewQuoteStorage ⟨"DELETE", ["quotes", "random"], [], none, 0, 0⟩ =
      (NewQuoteStorage, { Code := 405, Body := .empty }) ∧
    (serve NewQuoteStorage ⟨"DELETE", ["quotes", "random"], [], none, 0, 0⟩).2.Code ≠ 404 := by
  decide

/-! ## `GetAll` and `GET /quotes` -/

/-- C15.  `GetAll` never fails and returns the whole collection in collection order, as a
non-nil slice; on a store with an empty collection the slice is empty and non-nil, and
`GET /quotes` is answered 200 with an empty list, not `null`. -/
theorem GetAll_spec (s : QuoteStorage) :
    s.GetAll = (s, some s.quotes, none) ∧
    (s.quotes = [] → s.GetAll.2.1 = some [] ∧
      ∀ (body : Option Quote) (now seed : Nat),
        serve s ⟨"GET", ["quotes"], [], body, now, seed⟩ =
          (s, { Code := 200, Body := .quotes (some []) })) := by
  refine ⟨rfl, ?_⟩
  intro h
  refine ⟨by simp [QuoteStorage.GetAll, h], ?_⟩
  intro body now seed
  rw [serve_GET_quotes, h]

theorem GetAll_spec_witness :
    NewQuoteStorage.GetAll.2.1 = some [] ∧
    serve NewQuoteStorage ⟨"GET", ["quotes"], [], none, 0, 0⟩ =
      (NewQuoteStorage, { Code := 200, Body := .quotes (some []) }) :=
  ⟨((GetAll_spec NewQuoteStorage).2 rfl).1, ((GetAll_spec NewQuoteStorage).2 rfl).2 none 0 0⟩

/-! ## The service over the in-memory store -/

theorem errorsIs_wrapError_sentinel (op : String) (err target : GoError)
    (h : target ∈ sentinels) : errorsIs (.wrapError op err) target = errorsIs err target := by
  have hne : GoError.wrapError op err ≠ target := by
    intro heq
    rw [← heq] at h
    simp [sentinels] at h
  simp [errorsIs, hne]

theorem sameKind_wrapError (op : String) (err : GoError) :
    sameKind (some (.wrapError op err)) (some err) := by
  intro target h
  exact errorsIs_wrapError_sentinel op err target h

/-- C16.  Over the in-memory store, each service method leaves the store in the state the
store method called directly with the same input leaves it in, returns the same value, and
returns `nil` or an error of the same kind as the store method does: `DeleteQuote`,
`GetQuotesByAuthor`, `GetAllQuotes`, `GetRandomQuote`, and `CreateQuote` on a non-nil
quote. -/
theorem service_passes_through (s : QuoteStorage) :
    (∀ id : Int,
      (QuoteService.DeleteQuote memoryRepository s id).1 = (s.Delete id).1 ∧
      sameKind (QuoteService.DeleteQuote memoryRepository s id).2 (s.Delete id).2) ∧
    (∀ author : String,
      (QuoteService.GetQuotesByAuthor memoryRepository s author).1 = (s.GetByAuthor author).1 ∧
      (QuoteService.GetQuotesByAuthor memoryRepository s author).2.1 =
        (s.GetByAuthor author).2.1 ∧
      sameKind (QuoteService.GetQuotesByAuthor memoryRepository s author).2.2
        (s.GetByAuthor author).2.2) ∧
    ((QuoteService.GetAllQuotes memoryRepository s).1 = s.GetAll.1 ∧
      (QuoteService.GetAllQuotes memoryRepository s).2.1 = s.GetAll.2.1 ∧
      sameKind (QuoteService.GetAllQuotes memoryRepository s).2.2 s.GetAll.2.2) ∧
    (∀ seed : Nat,
      (QuoteService.GetRandomQuote memoryRepository s seed).1 = (s.GetRandom seed).1 ∧
      (QuoteService.GetRandomQuote memoryRepository s seed).2.1 = (s.GetRandom seed).2.1 ∧
      sameKind (QuoteService.GetRandomQuote memoryRepository s seed).2.2
        (s.GetRandom seed).2.2) ∧
    (∀ (now : Nat) (quote : Quote),
      (QuoteService.CreateQuote memoryRepository s now (some quote)).1 =
        (s.Create now quote).1 ∧
      (QuoteService.CreateQuote memoryRepository s now (some quote)).2.1 =
        some (s.Create now quote).2.1 ∧
      sameKind (QuoteService.CreateQuote memoryRepository s now (some quote)).2.2
        (s.Create now quote).2.2) := by
  refine ⟨?_, ?_, ?_, ?_, ?_⟩
  · intro id
    by_cases hid : id ≤ 0
    · simp only [QuoteService.DeleteQuote, QuoteStorage.Delete, if_pos hid]
      refine ⟨trivial, ?_⟩
      intro target ht
      rw [errorsIs_wrapError_sentinel _ _ _ ht, errorsIs_wrapError_sentinel _ _ _ ht]
    · cases herr : (s.Delete id).2 with
      | none => simp [QuoteService.DeleteQuote, hid, memoryRepository, herr, sameKind]
      | some err =>
          simp only [QuoteService.DeleteQuote, if_neg hid, memoryRepository, herr]
          exact ⟨trivial, sameKind_wrapError _ err⟩
  · intro author
    by_cases ha : author = ""
    · simp only [QuoteService.GetQuotesByAuthor, QuoteStorage.GetByAuthor, if_pos ha]
      refine ⟨trivial, trivial, ?_⟩
      intro target ht
      rw [errorsIs_wrapError_sentinel _ _ _ ht, errorsIs_wrapError_sentinel _ _ _ ht]
    · simp [QuoteService.GetQuotesByAuthor, QuoteStorage.GetByAuthor, ha, memoryRepository,
        sameKind]
  · simp [QuoteService.GetAllQuotes, QuoteStorage.GetAll, memoryRepository, sameKind]
  · intro seed
    by_cases h : s.quotes.length = 0
    · simp only [QuoteService.GetRandomQuote, QuoteStorage.GetRandom, memoryRepository,
        dif_pos h]
      exact ⟨trivial, trivial, sameKind_wrapError _ _⟩
    · simp [QuoteService.GetRandomQuote, QuoteStorage.GetRandom, memoryRepository, h, sameKind]
  · intro now quote
    by_cases ha : quote.Author = ""
    · simp only [QuoteService.CreateQuote, memoryRepository, Create_emptyAuthor s now quote ha]
      exact ⟨trivial, trivial, sameKind_wrapError _ _⟩
    · by_cases ht : quote.Text = ""
      · simp only [QuoteService.CreateQuote, memoryRepository,
          Create_emptyText s now quote ha ht]
        exact ⟨trivial, trivial, sameKind_wrapError _ _⟩
      · simp [QuoteService.CreateQuote, memoryRepository, Create_ok s now quote ha ht,
          sameKind]

/-! ## Pre-validation in the service -/

/-- C17.  For every repository and every repository state, `DeleteQuote id` with `id ≤ 0`
returns an error wrapping `ErrInvalidID` and `GetQuotesByAuthor ""` returns an error wrapping
`ErrEmptyAuthor`, and both hand back the repository state they were given: no repository
operation has run. -/
theorem service_prevalidation {σ : Type} (repo : QuoteRepository σ) (s : σ) :
    (∀ id : Int, id ≤ 0 →
      QuoteService.DeleteQuote repo s id =
        (s, some (.wrapError "services.quote.DeleteQuote" .ErrInvalidID)) ∧
      ∀ err, (QuoteService.DeleteQuote repo s id).2 = some err →
        errorsIs err .ErrInvalidID = true) ∧
    (QuoteService.GetQuotesByAuthor repo s "" =
        (s, none, some (.wrapError "services.quote.GetQuotesByAuthor" .ErrEmptyAuthor)) ∧
      ∀ err, (QuoteService.GetQuotesByAuthor repo s "").2.2 = some err →
        errorsIs err .ErrEmptyAuthor = true) := by
  refine ⟨?_, ?_, ?_⟩
  · intro id hid
    have h : QuoteService.DeleteQuote repo s id =
        (s, some (.wrapError "services.quote.DeleteQuote" .ErrInvalidID)) := by
      simp [QuoteService.DeleteQuote, hid]
    refine ⟨h, ?_⟩
    intro err herr
    rw [h] at herr
    simp only [Option.some.injEq] at herr
    rw [← herr]
    decide
  · simp [QuoteService.GetQuotesByAuthor]
  · intro err herr
    simp only [QuoteService.GetQuotesByAuthor, if_true, Option.some.injEq] at herr
    rw [← herr]
    decide

/-- On the repository that counts the operations invoked on it and lets every one of them
succeed, the two rejected calls leave the count at `0`, while a call that passes the
pre-validation raises it. -/
theorem service_prevalidation_witness :
    QuoteService.DeleteQuote countingRepository 0 (-3) =
      (0, some (.wrapError "services.quote.DeleteQuote" .ErrInvalidID)) ∧
    QuoteService.GetQuotesByAuthor countingRepository 0 "" =
      (0, none, some (.wrapError "services.quote.GetQuotesByAuthor" .ErrEmptyAuthor)) ∧
    (QuoteService.DeleteQuote countingRepository 0 3).1 = 1 ∧
    (QuoteService.GetQuotesByAuthor countingRepository 0 "A").1 = 1 :=
  ⟨((service_prevalidation countingRepository 0).1 (-3) (by decide)).1,
   (service_prevalidation countingRepository 0).2.1, by decide, by decide⟩

/-! ## Reads leave the store alone -/

theorem step_read (s : QuoteStorage) (op : Op) (h : op.isRead = true) : (step s op).1 = s := by
  cases op with
  | create now quote => simp [Op.isRead] at h
  | getAll => rfl
  | getRandom seed => by_cases h0 : s.quotes.length = 0 <;> simp [step, QuoteStorage.GetRandom, h0]
  | getByAuthor author =>
      by_cases h0 : author = "" <;> simp [step, QuoteStorage.GetByAuthor, h0]
  | delete id => simp [Op.isRead] at h

theorem run_reads (s : QuoteStorage) (ops : List Op) (h : ∀ op ∈ ops, op.isRead = true) :
    (run s ops).1 = s := by
  induction ops with
  | nil => rfl
  | cons op ops ih =>
      rw [run_cons]
      simp only
      rw [step_read s op (h op (List.mem_cons_self op ops))]
      exact ih (fun op0 h0 => h op0 (List.mem_cons_of_mem op h0))

theorem run_append (s : QuoteStorage) (ops1 ops2 : List Op) :
    run s (ops1 ++ ops2) =
      ((run (run s ops1).1 ops2).1, (run s ops1).2 ++ (run (run s ops1).1 ops2).2) := by
  induction ops1 generalizing s with
  | nil => rfl
  | cons op ops ih =>
      rw [List.cons_append, run_cons, run_cons, ih]
      rfl

/-- C18.  For every store state and every sequence of `GetAll`, `GetRandom` and
`GetByAuthor` calls (successful or failing), the calls leave the store, collection and
counter, as it was; so in the run "`GetAll`, the reads, `GetAll`" the first and the last call
return the same thing, the collection. -/
theorem GetAll_stable_across_reads (s : QuoteStorage) (ops : List Op)
    (hreads : ∀ op ∈ ops, op.isRead = true) :
    (run s ops).1 = s ∧
    (run s (.getAll :: (ops ++ [.getAll]))).2.head? = some (.getAll (some s.quotes) none) ∧
    (run s (.getAll :: (ops ++ [.getAll]))).2.getLast? = some (.getAll (some s.quotes) none) := by
  have hstate := run_reads s ops hreads
  refine ⟨hstate, rfl, ?_⟩
  rw [run_cons]
  have hfirst : (step s .getAll).1 = s := rfl
  simp only [hfirst]
  rw [run_append, hstate]
  have hlast : (run s [Op.getAll]).2 = [Result.getAll (some s.quotes) none] := rfl
  rw [hlast, ← List.cons_append, List.getLast?_concat]

theorem GetAll_stable_across_reads_witness :
    (run (QuoteStorage.mk [⟨1, "A", "x", 5⟩] 2)
      (.getAll :: ([.getRandom 4, .getByAuthor "", .getByAuthor "A", .getAll] ++
        [.getAll]))).2.getLast? = some (.getAll (some [⟨1, "A", "x", 5⟩]) none) :=
  (GetAll_stable_across_reads (QuoteStorage.mk [⟨1, "A", "x", 5⟩] 2)
    [.getRandom 4, .getByAuthor "", .getByAuthor "A", .getAll] (by decide)).2.2

/-! ## The shape of the collection after a delete -/

theorem scan_first (id : Int) (quotes : List Quote) (k i : Nat) (q : Quote)
    (hget : quotes[i]? = some q) (hid : q.ID = id)
    (hfirst : ∀ j, j < i → ∀ q0, quotes[j]? = some q0 → q0.ID ≠ id) :
    QuoteStorage.Delete.scan id quotes k = some (k + i) := by
  induction quotes generalizing k i with
  | nil => simp at hget
  | cons a rest ih =>
      cases i with
      | zero =>
          simp at hget
          subst hget
          simp [QuoteStorage.Delete.scan, hid]
      | succ n =>
          have ha : a.ID ≠ id := hfirst 0 (Nat.succ_pos n) a (by simp)
          rw [List.getElem?_cons_succ] at hget
          have hrest := ih (k + 1) n hget (fun j hj q0 hq0 =>
            hfirst (j + 1) (Nat.succ_lt_succ hj) q0 (by rw [List.getElem?_cons_succ]; exact hq0))
          simp only [QuoteStorage.Delete.scan, if_neg ha]
          rw [hrest]
          congr 1
          omega

/-- C19.  For every store, every id and the index `i` of the first quote carrying it, a
successful `Delete id` leaves a collection one shorter that agrees with the old one at every
index other than `i` and, when `i` is not the last index, holds the old last quote at index
`i`; the old collection is the new one plus the deleted quote; the counter is untouched.
After three creates, deleting id 1 leaves the quotes with ids 3, 2, in that order. -/
theorem Delete_swaps_last_into_place (s : QuoteStorage) (id : Int) (i : Nat) (q : Quote)
    (hget : s.quotes[i]? = some q) (hid : q.ID = id)
    (hfirst : ∀ j, j < i → ∀ q0, s.quotes[j]? = some q0 → q0.ID ≠ id)
    (hsucc : (s.Delete id).2 = none) :
    (s.Delete id).1.quotes.length = s.quotes.length - 1 ∧
    (∀ j, j < s.quotes.length - 1 → j ≠ i → (s.Delete id).1.quotes[j]? = s.quotes[j]?) ∧
    (i < s.quotes.length - 1 → (s.Delete id).1.quotes[i]? = s.quotes.getLast?) ∧
    List.Perm s.quotes (q :: (s.Delete id).1.quotes) ∧
    (s.Delete id).1.nextID = s.nextID ∧
    ((run NewQuoteStorage [.create 1 ⟨0, "A", "x", 0⟩, .create 2 ⟨0, "B", "y", 0⟩,
        .create 3 ⟨0, "C", "z", 0⟩, .delete 1]).1.quotes.map Quote.ID = [3, 2]) := by
  have hpos : ¬ id ≤ 0 := by
    intro hle
    simp [QuoteStorage.Delete, hle] at hsucc
  have hscan : QuoteStorage.Delete.scan id s.quotes 0 = some i := by
    simpa using scan_first id s.quotes 0 i q hget hid hfirst
  have hstate : (s.Delete id).1 = { s with quotes := swapRemove s.quotes i } := by
    simp [QuoteStorage.Delete, hpos, hscan]
  have hperm := swapRemove_perm s.quotes i q hget
  rw [hstate]
  refine ⟨?_, ?_, ?_, hperm, rfl, by decide⟩
  · have := hperm.length_eq
    simp only [List.length_cons] at this
    simp only
    omega
  · intro j hj hji
    have hne : s.quotes ≠ [] := by
      intro h0
      rw [h0] at hget
      simp at hget
    obtain ⟨init, last, hsplit⟩ : ∃ init last, s.quotes = init ++ [last] :=
      ⟨s.quotes.dropLast, s.quotes.getLast hne, (List.dropLast_append_getLast hne).symm⟩
    simp only [hsplit, swapRemove_concat]
    rw [hsplit] at hj
    have hj2 : j < init.length := by simpa using hj
    rw [List.getElem?_set_ne (Ne.symm hji), List.getElem?_append_left hj2]
  · intro hi
    have hne : s.quotes ≠ [] := by
      intro h0
      rw [h0] at hget
      simp at hget
    obtain ⟨init, last, hsplit⟩ : ∃ init last, s.quotes = init ++ [last] :=
      ⟨s.quotes.dropLast, s.quotes.getLast hne, (List.dropLast_append_getLast hne).symm⟩
    simp only [hsplit, swapRemove_concat, List.getLast?_concat]
    rw [hsplit] at hi
    have hi2 : i < init.length := by simpa using hi
    exact List.getElem?_set_self hi2

theorem Delete_swaps_last_into_place_witness :
    ((QuoteStorage.mk [⟨1, "A", "x", 1⟩, ⟨2, "B", "y", 2⟩, ⟨3, "C", "z", 3⟩] 4).Delete 1).1.quotes[0]?
      = some ⟨3, "C", "z", 3⟩ ∧
    ((QuoteStorage.mk [⟨1, "A", "x", 1⟩, ⟨2, "B", "y", 2⟩, ⟨3, "C", "z", 3⟩] 4).Delete 1).1.quotes[1]?
      = some ⟨2, "B", "y", 2⟩ :=
  have h := Delete_swaps_last_into_place
    (QuoteStorage.mk [⟨1, "A", "x", 1⟩, ⟨2, "B", "y", 2⟩, ⟨3, "C", "z", 3⟩] 4) 1 0
    ⟨1, "A", "x", 1⟩ (by decide) (by decide) (by intro j hj; omega) (by decide)
  ⟨(h.2.2.1 (by decide)).trans (by decide), (h.2.1 1 (by decide) (by decide)).trans (by decide)⟩

/-! ## A rejected create -/

/-- C20.  A `Create` that returns an error leaves the store (collection and counter) and
the caller's quote exactly as they were, so the next `Create` behaves as if the rejected
call had not happened: a run that starts with the rejected create assigns the same ids and
ends in the same store as the run without it. -/
theorem Create_failure_atomic (s : QuoteStorage) (now : Nat) (quote : Quote)
    (hfail : (s.Create now quote).2.2 ≠ none) :
    (s.Create now quote).1 = s ∧
    (s.Create now quote).2.1 = quote ∧
    (∀ (now1 : Nat) (quote1 : Quote),
      (s.Create now quote).1.Create now1 quote1 = s.Create now1 quote1) ∧
    (∀ ops : List Op, assignedIDs s (.create now quote :: ops) = assignedIDs s ops) ∧
    (∀ ops : List Op, (run s (.create now quote :: ops)).1 = (run s ops).1) := by
  have hcases : quote.Author = "" ∨ (quote.Author ≠ "" ∧ quote.Text = "") := by
    by_cases ha : quote.Author = ""
    · exact Or.inl ha
    · by_cases ht : quote.Text = ""
      · exact Or.inr ⟨ha, ht⟩
      · rw [Create_ok s now quote ha ht] at hfail
        exact absurd rfl hfail
  have hsame : (s.Create now quote).1 = s ∧ (s.Create now quote).2.1 = quote ∧
      ∃ err, (s.Create now quote).2.2 = some err := by
    rcases hcases with ha | ⟨ha, ht⟩
    · rw [Create_emptyAuthor s now quote ha]
      exact ⟨rfl, rfl, _, rfl⟩
    · rw [Create_emptyText s now quote ha ht]
      exact ⟨rfl, rfl, _, rfl⟩
  obtain ⟨hstore, hquote, err, herr⟩ := hsame
  have hstep : (step s (.create now quote)).1 = s := hstore
  refine ⟨hstore, hquote, ?_, ?_, ?_⟩
  · intro now1 quote1
    rw [hstore]
  · intro ops
    unfold assignedIDs
    rw [run_cons]
    simp only [hstep, step, herr, List.filterMap_cons, Result.assignedID]
    rw [hstore]
  · intro ops
    rw [run_cons]
    simp only [hstep]

theorem Create_failure_atomic_witness :
    (NewQuoteStorage.Create 5 ⟨9, "", "text", 4⟩).1 = NewQuoteStorage ∧
    (NewQuoteStorage.Create 5 ⟨9, "", "text", 4⟩).2.1 = ⟨9, "", "text", 4⟩ ∧
    assignedIDs NewQuoteStorage [.create 5 ⟨9, "", "text", 4⟩, .create 6 ⟨0, "A", "x", 0⟩] = [1] :=
  have h := Create_failure_atomic NewQuoteStorage 5 ⟨9, "", "text", 4⟩ (by decide)
  ⟨h.1, h.2.1, (h.2.2.2.1 [.create 6 ⟨0, "A", "x", 0⟩]).trans (by decide)⟩

end Quotes
